import Mathlib

/-!
Verification model of the dispatcher in rhasspy-hermes-app
(`rhasspyhermes_app/__init__.py`): topic-pattern compilation (`on_topic`'s
`placeholder_mapper` / `regex_mapper`), the handler registry, the dispatch
loop (`on_raw_message`), the subscription-filter computation
(`_subscribe_callbacks`) and the session-response translation performed by
the `wrapped` closures of `on_intent` / `on_intent_not_recognized`.

Python strings are modelled as lists of characters.  Handler callbacks are
modelled by an identifier together with their observable behaviour when
invoked (return a result, or raise an exception); dispatch produces a trace
of observable events (handler invocations, outbound publishes, log calls).
-/

namespace RHApp

/-- Python strings, modelled as lists of characters. -/
abbrev Str := List Char

/-- Coerce a Lean string literal to the model's string type. -/
def str (s : String) : Str := s.toList

/-- Python topic.split(sep="/"). -/
def splitOnSlash : Str → List Str
  | [] => [[]]
  | c :: rest =>
    if c = '/' then [] :: splitOnSlash rest
    else
      match splitOnSlash rest with
      | [] => [[c]]
      | s :: ss => (c :: s) :: ss

/-- Python "/".join(parts). -/
def joinSlash : List Str → Str
  | [] => []
  | [s] => s
  | s :: ss => s ++ '/' :: joinSlash ss

/-- Python s[1:-1]. -/
def stripFirstLast (s : Str) : Str := (s.drop 1).dropLast

/-- Python dict-of-lists update d[k].append(v), with except KeyError:
d[k] = [v].  Insertion-ordered association list, first binding wins. -/
def dictAppend {α : Type} (d : List (Str × List α)) (k : Str) (v : α) :
    List (Str × List α) :=
  if d.any (fun p => p.1 == k) then
    d.map (fun p => if p.1 == k then (p.1, p.2 ++ [v]) else p)
  else d ++ [(k, [v])]

/-- Python k in d / d[k] on an insertion-ordered dict. -/
def dictFind {α : Type} (d : List (Str × α)) (k : Str) : Option α :=
  (d.find? (fun p => p.1 == k)).map (·.2)

/-- Python list(d.keys()) on an insertion-ordered dict. -/
def dictKeys {α : Type} (d : List (Str × α)) : List Str := d.map (·.1)

/-- Python d[k] = v on an insertion-ordered dict. -/
def dictInsert {α : Type} (d : List (Str × α)) (k : Str) (v : α) :
    List (Str × α) :=
  if d.any (fun p => p.1 == k) then
    d.map (fun p => if p.1 == k then (p.1, v) else p)
  else d ++ [(k, v)]

/-! ### The regex fragment emitted by regex_mapper

regex_mapper only ever emits the anchors ^ / $, literal characters, and
the character classes [^+#/] (no quantifier) and [^/] with an optional +
quantifier.  We give this fragment the exact semantics Python's re.match
uses: the match is anchored at the start of the string and may end before
the end of the input unless $ is present.  Literal topic segments are
assumed free of further regex metacharacters. -/

/-- Tokens of the regex fragment produced by regex_mapper. -/
inductive RTok
  | lit (c : Char)
  | startAnchor
  | endAnchor
  | negClass (cs : List Char)
  | negClassPlus (cs : List Char)
deriving Repr, DecidableEq

/-- Scanner for the regex fragment produced by regex_mapper. -/
def tokenizeRe : Str → List RTok
  | '[' :: '^' :: '+' :: '#' :: '/' :: ']' :: rest =>
    .negClass ['+', '#', '/'] :: tokenizeRe rest
  | '[' :: '^' :: '/' :: ']' :: '+' :: rest =>
    .negClassPlus ['/'] :: tokenizeRe rest
  | '[' :: '^' :: '/' :: ']' :: rest => .negClass ['/'] :: tokenizeRe rest
  | '^' :: rest => .startAnchor :: tokenizeRe rest
  | '$' :: rest => .endAnchor :: tokenizeRe rest
  | c :: rest => .lit c :: tokenizeRe rest
  | [] => []

/-- After at least one character of a one-or-more class has been consumed:
try the continuation k now, or consume one more character outside cs and
repeat (the backtracking search of the regex engine). -/
def matchStar (cs : List Char) (k : Str → Bool) : Str → Bool
  | [] => k []
  | x :: s => k (x :: s) || (!cs.contains x && matchStar cs k s)

/-- Backtracking matcher for the token list; the Bool argument records
whether we are still at the start of the input (for ^). -/
def matchToks : List RTok → Str → Bool → Bool
  | [], _, _ => true
  | .startAnchor :: ts, s, atStart => atStart && matchToks ts s atStart
  | .endAnchor :: ts, s, atStart => s.isEmpty && matchToks ts s atStart
  | .lit _ :: _, [], _ => false
  | .lit c :: ts, x :: s, _ => x == c && matchToks ts s false
  | .negClass _ :: _, [], _ => false
  | .negClass cs :: ts, x :: s, _ => !cs.contains x && matchToks ts s false
  | .negClassPlus _ :: _, [], _ => false
  | .negClassPlus cs :: ts, x :: s, _ =>
    !cs.contains x && matchStar cs (fun s2 => matchToks ts s2 false) s

/-- Python re.match(pattern, topic) is not None, for the emitted fragment. -/
def reMatch (pattern topic : Str) : Bool :=
  matchToks (tokenizeRe pattern) topic true

/-! ### Topic pattern compilation (HermesApp.on_topic) -/

/-- Python token.startswith("\x7b") and token.endswith("\x7d"),
the placeholder test in placeholder_mapper. -/
def isPlaceholder (token : Str) : Bool :=
  match token.head?, token.getLast? with
  | some c1, some c2 => c1 == '\x7b' && c2 == '\x7d'
  | _, _ => false

/-- regex_mapper from HermesApp.on_topic: per-segment regex construction,
special-casing the first and last segment. -/
def regex_mapper (length i : Nat) (token : Str) : Str :=
  if i = 0 then
    if token = ['+'] then str "^[^+#/]"
    else if length = 0 ∧ token = ['#'] then str "[^/]+"
    else '^' :: token
  else if i < length then
    if token = ['+'] then str "[^/]+" else token
  else if i = length then
    if token = ['#'] then str "[^/]+"
    else if token = ['+'] then str "[^/]+$"
    else token ++ ['$']
  else token

/-- Result of compiling one topic_name inside on_topic: the broker filter
(replaced_topic_name), the regex source (pattern) and the recorded
placeholder positions (named_positions). -/
structure Compiled where
  replaced : Str
  pattern : Str
  named_positions : List (Str × Nat)
deriving Repr, DecidableEq

/-- placeholder_mapper from HermesApp.on_topic, as one step of a fold over
the enumerated segments: a placeholder segment becomes + and its zero-based
index is recorded under its name; other segments pass through. -/
def placeholderStep (st : List Str × List (Str × Nat)) (p : Nat × Str) :
    List Str × List (Str × Nat) :=
  if isPlaceholder p.2 then
    (st.1 ++ [['+']], dictInsert st.2 ((p.2.drop 1).dropLast) p.1)
  else (st.1 ++ [p.2], st.2)

/-- One iteration of the for topic_name in topic_names loop of on_topic:
split on /, replace placeholder segments by + while recording their
zero-based index, join to the broker filter, and join the regex_mapper
images to the regex source. -/
def compileOne (topic_name : Str) : Compiled :=
  let parts := splitOnSlash topic_name
  let length := parts.length - 1
  let pp := parts.enum.foldl placeholderStep ([], [])
  let replaced := joinSlash pp.1
  let pattern := joinSlash (pp.1.enum.map (fun p => regex_mapper length p.1 p.2))
  ⟨replaced, pattern, pp.2⟩

/-! ### Messages, handlers, registry -/

/-- Kind of exception a handler or decoder raises. -/
inductive ExcKind
  | keyError
  | other
deriving Repr, DecidableEq

/-- The fields of rhasspyhermes.nlu.NluIntent the dispatcher reads. -/
structure NluIntentMsg where
  intent_name : Str
  session_id : Option Str
  site_id : Str
deriving Repr, DecidableEq

/-- The fields of rhasspyhermes.nlu.NluIntentNotRecognized the dispatcher
reads. -/
structure InrMsg where
  session_id : Option Str
  site_id : Str
deriving Repr, DecidableEq

/-- A handler's return value: the ContinueSession / EndSession helper
dataclasses, or anything else (None). -/
inductive HandlerResult
  | continueSession (custom_data : Option Str) (text : Option Str)
      (intent_filter : Option (List Str)) (send_intent_not_recognized : Bool)
  | endSession (text : Option Str) (custom_data : Option Str)
  | noResult
deriving Repr, DecidableEq

/-- A raw MQTT payload, abstracted by what the relevant from_json decodes
it to.  badJson stands for a payload whose decode raises KeyError. -/
inductive Payload
  | hotwordMsg
  | intentMsg (m : NluIntentMsg)
  | inrMsg (m : InrMsg)
  | badJson
  | rawBytes (n : Nat)
deriving Repr, DecidableEq

/-- HotwordDetected.from_json: KeyError (none) or a decoded record. -/
def hotwordFromJson : Payload → Option Unit
  | .hotwordMsg => some ()
  | _ => none

/-- NluIntent.from_json. -/
def intentFromJson : Payload → Option NluIntentMsg
  | .intentMsg m => some m
  | _ => none

/-- NluIntentNotRecognized.from_json. -/
def inrFromJson : Payload → Option InrMsg
  | .inrMsg m => some m
  | _ => none

/-- A hotword callback, abstracted by an identifier and its behaviour when
invoked (some k: raises an exception of kind k). -/
structure HotwordHandler where
  hid : Nat
  beh : Option ExcKind
deriving Repr, DecidableEq

/-- A raw-topic callback registered for an exact (non-regex) topic. -/
structure TopicHandler where
  hid : Nat
  beh : Option ExcKind
deriving Repr, DecidableEq

/-- A raw-topic callback carrying a topic_extras attribute: one
(compiled regex, named placeholder positions) pair per non-exact pattern
of its registration. -/
structure RegexHandler where
  hid : Nat
  beh : Option ExcKind
  topic_extras : List (Str × Option (List (Str × Nat)))
deriving Repr, DecidableEq

/-- An intent callback: identifier plus the outcome of calling the user
function on a message (raise, or return a value). -/
structure IntentHandler where
  hid : Nat
  run : NluIntentMsg → Except ExcKind HandlerResult

/-- An intent-not-recognized callback. -/
structure InrHandler where
  hid : Nat
  run : InrMsg → Except ExcKind HandlerResult

/-- The registry fields of HermesApp set up in __init__. -/
structure App where
  callbacks_hotword : List HotwordHandler := []
  callbacks_intent : List (Str × List IntentHandler) := []
  callbacks_intent_not_recognized : List InrHandler := []
  callbacks_topic : List (Str × List TopicHandler) := []
  callbacks_topic_regex : List RegexHandler := []
  additional_topic : List Str := []

/-- A freshly initialised HermesApp: every registry empty. -/
def app0 : App := {}

/-! ### Registration (the decorators) -/

/-- HermesApp.on_hotword: unconditionally appends the callback. -/
def on_hotword (app : App) (f : HotwordHandler) : App :=
  { app with callbacks_hotword := app.callbacks_hotword ++ [f] }

/-- HermesApp.on_intent: appends the wrapped callback to the list of every
named intent (creating the entry on KeyError). -/
def on_intent (app : App) (intent_names : List Str) (f : IntentHandler) : App :=
  { app with callbacks_intent :=
      intent_names.foldl (fun d n => dictAppend d n f) app.callbacks_intent }

/-- HermesApp.on_intent_not_recognized: unconditionally appends. -/
def on_intent_not_recognized (app : App) (f : InrHandler) : App :=
  { app with callbacks_intent_not_recognized :=
      app.callbacks_intent_not_recognized ++ [f] }

/-- HermesApp.on_topic for one decorated function: for each pattern,
compile it; if topic_name == pattern[1:-1] store the callback under the
exact topic, otherwise collect the broker filter and the
(regex, named_positions) pair on the wrapped callback; finally, if any
pattern was non-exact, append the wrapped callback to
_callbacks_topic_regex and extend _additional_topic. -/
def on_topic (app : App) (topic_names : List Str) (hid : Nat)
    (beh : Option ExcKind) : App :=
  let st := topic_names.foldl
    (fun (st : List (Str × List TopicHandler) × List Str ×
          List (Str × Option (List (Str × Nat)))) topic_name =>
      let c := compileOne topic_name
      if topic_name = stripFirstLast c.pattern then
        (dictAppend st.1 topic_name ⟨hid, beh⟩, st.2.1, st.2.2)
      else
        (st.1, st.2.1 ++ [c.replaced],
         st.2.2 ++ [(c.pattern,
           if c.named_positions.length > 0 then some c.named_positions
           else none)]))
    (app.callbacks_topic, [], [])
  if st.2.2.length > 0 then
    { app with
        callbacks_topic := st.1
        callbacks_topic_regex := app.callbacks_topic_regex ++ [⟨hid, beh, st.2.2⟩]
        additional_topic := app.additional_topic ++ st.2.1 }
  else
    { app with callbacks_topic := st.1 }

/-! ### Subscription filters (HermesApp._subscribe_callbacks)

The topic shapes of the external rhasspyhermes message classes are modelled
from their documented Hermes protocol form (hermes/hotword/+/detected,
hermes/intent/INTENT_NAME, hermes/nlu/intentNotRecognized). -/

/-- NluIntent.topic(intent_name=n). -/
def nluIntentTopic (intent_name : Str) : Str := str "hermes/intent/" ++ intent_name

/-- HotwordDetected.topic(). -/
def hotwordDetectedFilter : Str := str "hermes/hotword/+/detected"

/-- NluIntentNotRecognized.topic(). -/
def inrTopic : Str := str "hermes/nlu/intentNotRecognized"

/-- HermesApp._subscribe_callbacks: the list handed to subscribe_topics.
list(set(d.keys())) is modelled as the (already duplicate-free) key list
of the insertion-ordered dict. -/
def subscribeTopicsList (app : App) : List Str :=
  let topics := (dictKeys app.callbacks_intent).map nluIntentTopic
  let topics :=
    if app.callbacks_hotword.isEmpty then topics
    else topics ++ [hotwordDetectedFilter]
  let topics :=
    if app.callbacks_intent_not_recognized.isEmpty then topics
    else topics ++ [inrTopic]
  let topics := topics ++ dictKeys app.callbacks_topic
  topics ++ app.additional_topic

/-! ### Message classification (the external is_topic predicates) -/

/-- HotwordDetected.is_topic: hermes/hotword/WAKEWORD_ID/detected. -/
def hotword_is_topic (t : Str) : Bool :=
  match splitOnSlash t with
  | [a, b, c, d] =>
    a == str "hermes" && b == str "hotword" && !c.isEmpty && d == str "detected"
  | _ => false

/-- NluIntent.is_topic: hermes/intent/INTENT_NAME with nonempty name. -/
def intent_is_topic (t : Str) : Bool :=
  match t with
  | 'h' :: 'e' :: 'r' :: 'm' :: 'e' :: 's' :: '/' :: 'i' :: 'n' :: 't' ::
    'e' :: 'n' :: 't' :: '/' :: rest => !rest.isEmpty
  | _ => false

/-- NluIntentNotRecognized.is_topic. -/
def inr_is_topic (t : Str) : Bool := t == inrTopic

/-! ### Dispatch (HermesApp.on_raw_message) -/

/-- An outbound publish performed by a wrapped intent /
intent-not-recognized callback. -/
inductive OutMsg
  | dialogueEndSession (session_id site_id : Str) (text custom_data : Option Str)
  | dialogueContinueSession (session_id site_id : Str) (text : Option Str)
      (intent_filter : Option (List Str)) (custom_data : Option Str)
      (send_intent_not_recognized : Bool)
deriving Repr, DecidableEq

/-- Observable events of one on_raw_message call, in order. -/
inductive Event
  | invokedHotword (hid : Nat)
  | invokedIntent (hid : Nat)
  | invokedInr (hid : Nat)
  | invokedTopic (hid : Nat) (topic : Str) (data : List (Str × Str))
      (payload : Payload)
  | published (m : OutMsg)
  | logMissingKey
  | logNoSessionError
  | logUnexpectedTopic
  | logException
deriving Repr, DecidableEq

/-- The isinstance branches shared by the wrapped closures of on_intent and
on_intent_not_recognized: translate a handler's return value into an
outbound publish, or an error log when the session id is missing. -/
def sessionTranslate (session_id : Option Str) (site_id : Str) :
    HandlerResult → List Event
  | .endSession text cd =>
    match session_id with
    | some sid => [.published (.dialogueEndSession sid site_id text cd)]
    | none => [.logNoSessionError]
  | .continueSession cd text filt snir =>
    match session_id with
    | some sid =>
      [.published (.dialogueContinueSession sid site_id text filt cd snir)]
    | none => [.logNoSessionError]
  | .noResult => []

/-- The for function_h in self._callbacks_hotword loop; a raised exception
aborts the loop and propagates. -/
def runHotwordLoop : List HotwordHandler → List Event × Option ExcKind
  | [] => ([], none)
  | h :: hs =>
    match h.beh with
    | some k => ([.invokedHotword h.hid], some k)
    | none =>
      let r := runHotwordLoop hs
      (.invokedHotword h.hid :: r.1, r.2)

/-- The for function_i in self._callbacks_intent[intent_name] loop,
including the session translation done inside each wrapped callback. -/
def runIntentLoop (m : NluIntentMsg) :
    List IntentHandler → List Event × Option ExcKind
  | [] => ([], none)
  | f :: fs =>
    match f.run m with
    | .error k => ([.invokedIntent f.hid], some k)
    | .ok res =>
      let r := runIntentLoop m fs
      (.invokedIntent f.hid ::
        (sessionTranslate m.session_id m.site_id res ++ r.1), r.2)

/-- The for function_inr in self._callbacks_intent_not_recognized loop. -/
def runInrLoop (m : InrMsg) : List InrHandler → List Event × Option ExcKind
  | [] => ([], none)
  | f :: fs =>
    match f.run m with
    | .error k => ([.invokedInr f.hid], some k)
    | .ok res =>
      let r := runInrLoop m fs
      (.invokedInr f.hid ::
        (sessionTranslate m.session_id m.site_id res ++ r.1), r.2)

/-- The for function_1 in self._callbacks_topic[topic] loop.  The Bool is
the negation of unexpected_topic: it becomes true once a callback has
completed. -/
def runTopicLoop (topic : Str) (payload : Payload) :
    List TopicHandler → List Event × Option ExcKind × Bool
  | [] => ([], none, false)
  | h :: hs =>
    match h.beh with
    | some k => ([.invokedTopic h.hid topic [] payload], some k, false)
    | none =>
      let r := runTopicLoop topic payload hs
      (.invokedTopic h.hid topic [] payload :: r.1, r.2.1, true)

/-- Building data.data from named_positions: data[name] = parts[position];
an out-of-range index raises (IndexError). -/
def extractDataE (topic : Str) :
    Option (List (Str × Nat)) → Except Unit (List (Str × Str))
  | none => .ok []
  | some nps =>
    let parts := splitOnSlash topic
    nps.foldlM
      (fun d p =>
        if h : p.2 < parts.length then .ok (dictInsert d p.1 parts[p.2])
        else .error ())
      []

/-- Total version of the extraction, for stating results. -/
def extractVals (topic : Str) : Option (List (Str × Nat)) → List (Str × Str)
  | none => []
  | some nps =>
    let parts := splitOnSlash topic
    nps.foldl (fun d p => dictInsert d p.1 (parts.getD p.2 [])) []

/-- The for pattern, named_positions in topic_extras loop of one wrapped
regex callback. -/
def runExtras (hid : Nat) (beh : Option ExcKind) (topic : Str)
    (payload : Payload) :
    List (Str × Option (List (Str × Nat))) → List Event × Option ExcKind × Bool
  | [] => ([], none, false)
  | (pat, named) :: rest =>
    if reMatch pat topic then
      match extractDataE topic named with
      | .error _ => ([], some .other, false)
      | .ok data =>
        match beh with
        | some k => ([.invokedTopic hid topic data payload], some k, false)
        | none =>
          let r := runExtras hid beh topic payload rest
          (.invokedTopic hid topic data payload :: r.1, r.2.1, true)
    else runExtras hid beh topic payload rest

/-- The for function_2 in self._callbacks_topic_regex loop. -/
def runRegexLoop (topic : Str) (payload : Payload) :
    List RegexHandler → List Event × Option ExcKind × Bool
  | [] => ([], none, false)
  | rh :: rest =>
    let r := runExtras rh.hid rh.beh topic payload rh.topic_extras
    match r.2.1 with
    | some k => (r.1, some k, r.2.2)
    | none =>
      let r2 := runRegexLoop topic payload rest
      (r.1 ++ r2.1, r2.2.1, r.2.2 || r2.2.2)

/-- The else branch of on_raw_message for generic topics: exact-topic
lookup, otherwise the regex callbacks; warn if nothing completed. -/
def handleGeneric (app : App) (topic : Str) (payload : Payload) :
    List Event × Option ExcKind :=
  let r :=
    match dictFind app.callbacks_topic topic with
    | some fns => runTopicLoop topic payload fns
    | none => runRegexLoop topic payload app.callbacks_topic_regex
  match r.2.1 with
  | some k => (r.1, some k)
  | none => if r.2.2 then (r.1, none) else (r.1 ++ [.logUnexpectedTopic], none)

/-- HermesApp.on_raw_message: classify the topic, decode, fan out to the
registered handlers; KeyError from decode or from a hotword / intent / inr
handler is caught by the inner except and logged as a missing key; any
other exception escapes to the outer except Exception, which logs it and
returns. -/
def on_raw_message (app : App) (topic : Str) (payload : Payload) : List Event :=
  let body : List Event × Option ExcKind :=
    if hotword_is_topic topic then
      match hotwordFromJson payload with
      | none => ([.logMissingKey], none)
      | some _ =>
        let r := runHotwordLoop app.callbacks_hotword
        match r.2 with
        | some .keyError => (r.1 ++ [.logMissingKey], none)
        | e => (r.1, e)
    else if intent_is_topic topic then
      match intentFromJson payload with
      | none => ([.logMissingKey], none)
      | some m =>
        match dictFind app.callbacks_intent m.intent_name with
        | none => ([], none)
        | some fns =>
          let r := runIntentLoop m fns
          match r.2 with
          | some .keyError => (r.1 ++ [.logMissingKey], none)
          | e => (r.1, e)
    else if inr_is_topic topic then
      match inrFromJson payload with
      | none => ([.logMissingKey], none)
      | some m =>
        let r := runInrLoop m app.callbacks_intent_not_recognized
        match r.2 with
        | some .keyError => (r.1 ++ [.logMissingKey], none)
        | e => (r.1, e)
    else handleGeneric app topic payload
  match body.2 with
  | none => body.1
  | some _ => body.1 ++ [.logException]

/-- Sequential processing of a stream of messages by the (immutable after
start-up) registry: the concatenation of the per-message traces. -/
def processMessages (app : App) : List (Str × Payload) → List Event
  | [] => []
  | (t, p) :: rest => on_raw_message app t p ++ processMessages app rest

end RHApp

namespace RHApp

/-! ### Auxiliary lemmas -/

theorem splitOnSlash_ne_nil (s : Str) : splitOnSlash s ≠ [] := by
  cases s with
  | nil => simp [splitOnSlash]
  | cons c rest =>
    simp only [splitOnSlash]
    split
    · simp
    · cases h : splitOnSlash rest <;> simp

theorem splitOnSlash_exists_cons (s : Str) : ∃ a l, splitOnSlash s = a :: l := by
  cases h : splitOnSlash s with
  | nil => exact absurd h (splitOnSlash_ne_nil s)
  | cons a l => exact ⟨a, l, rfl⟩

theorem joinSlash_cons_cons (x y : Str) (l : List Str) :
    joinSlash (x :: y :: l) = x ++ '/' :: joinSlash (y :: l) := rfl

theorem joinSlash_cons_of_ne_nil (x : Str) (l : List Str) (hl : l ≠ []) :
    joinSlash (x :: l) = x ++ '/' :: joinSlash l := by
  cases l with
  | nil => exact absurd rfl hl
  | cons y l2 => rfl

theorem splitOnSlash_cons_slash (rest : Str) :
    splitOnSlash ('/' :: rest) = [] :: splitOnSlash rest := by
  simp [splitOnSlash]

theorem splitOnSlash_cons_ne (c : Char) (rest : Str) (hc : c ≠ '/') (a : Str)
    (l : List Str) (hl : splitOnSlash rest = a :: l) :
    splitOnSlash (c :: rest) = (c :: a) :: l := by
  simp only [splitOnSlash]
  rw [if_neg hc, hl]

theorem joinSlash_splitOnSlash (s : Str) : joinSlash (splitOnSlash s) = s := by
  induction s with
  | nil => rfl
  | cons c rest ih =>
    obtain ⟨a, l, hl⟩ := splitOnSlash_exists_cons rest
    rw [hl] at ih
    by_cases hc : c = '/'
    · subst hc
      rw [splitOnSlash_cons_slash, hl, joinSlash_cons_cons, ih]
      rfl
    · rw [splitOnSlash_cons_ne c rest hc a l hl]
      cases l with
      | nil => simpa [joinSlash] using congrArg (c :: ·) ih
      | cons y l2 =>
        rw [joinSlash_cons_cons] at ih ⊢
        rw [← ih]
        rfl

theorem two_le_splitOnSlash_length (p : Str) (h : '/' ∈ p) :
    2 ≤ (splitOnSlash p).length := by
  induction p with
  | nil => simp at h
  | cons c rest ih =>
    by_cases hc : c = '/'
    · subst hc
      rw [splitOnSlash_cons_slash]
      obtain ⟨a, l, hl⟩ := splitOnSlash_exists_cons rest
      rw [hl]
      simp
    · have hr : '/' ∈ rest := by
        rcases List.mem_cons.mp h with h' | h'
        · exact absurd h'.symm hc
        · exact h'
      obtain ⟨a, l, hl⟩ := splitOnSlash_exists_cons rest
      have h2 := ih hr
      rw [hl] at h2
      rw [splitOnSlash_cons_ne c rest hc a l hl]
      simpa using h2

theorem foldl_placeholderStep (l : List (Nat × Str)) (acc : List Str)
    (nm : List (Str × Nat)) (h : ∀ q ∈ l, isPlaceholder q.2 = false) :
    l.foldl placeholderStep (acc, nm) = (acc ++ l.map Prod.snd, nm) := by
  induction l generalizing acc with
  | nil => simp
  | cons q l ih =>
    have hq : isPlaceholder q.2 = false := h q (List.mem_cons_self q l)
    simp only [List.foldl_cons, placeholderStep, hq]
    rw [if_neg (by simp)]
    rw [ih (acc ++ [q.2]) (fun r hr => h r (List.mem_cons_of_mem q hr))]
    simp

theorem map_regex_mapper_tail (b : Str) (rest : List Str) (i L : Nat)
    (hi : 1 ≤ i) (hL : i + rest.length = L)
    (hrest : ∀ s ∈ rest, s ≠ ['+'])
    (hb1 : b ≠ ['#']) (hb2 : b ≠ ['+']) :
    (List.enumFrom i (rest ++ [b])).map (fun p => regex_mapper L p.1 p.2)
      = rest ++ [b ++ ['$']] := by
  induction rest generalizing i with
  | nil =>
    have hiL : i = L := by simpa using hL
    subst hiL
    have h1 : regex_mapper i i b = b ++ ['$'] := by
      unfold regex_mapper
      rw [if_neg (by omega), if_neg (by omega), if_pos rfl, if_neg hb1,
        if_neg hb2]
    simp [List.enumFrom, h1]
  | cons s rest ih =>
    have hiL : i < L := by simp at hL; omega
    have hs : s ≠ ['+'] := hrest s (List.mem_cons_self s rest)
    have h1 : regex_mapper L i s = s := by
      unfold regex_mapper
      rw [if_neg (by omega), if_pos hiL, if_neg hs]
    have h2 := ih (i + 1) (by omega) (by simp at hL ⊢; omega)
      (fun r hr => hrest r (List.mem_cons_of_mem s hr))
    simp only [List.cons_append, List.enumFrom, List.map, h1, List.append_eq, h2]

theorem joinSlash_append_last (l : List Str) (b : Str) :
    joinSlash (l ++ [b ++ ['$']]) = joinSlash (l ++ [b]) ++ ['$'] := by
  induction l with
  | nil => simp [joinSlash]
  | cons x l ih =>
    rw [List.cons_append, List.cons_append,
      joinSlash_cons_of_ne_nil x _ (by simp),
      joinSlash_cons_of_ne_nil x _ (by simp), ih]
    simp

theorem compileOne_literal (p a b : Str) (mid : List Str)
    (hsplit : splitOnSlash p = a :: mid ++ [b])
    (hph : ∀ s ∈ splitOnSlash p, isPlaceholder s = false)
    (ha1 : a ≠ ['+'])
    (hmid : ∀ s ∈ mid, s ≠ ['+'])
    (hb1 : b ≠ ['#']) (hb2 : b ≠ ['+']) :
    compileOne p = ⟨p, '^' :: p ++ ['$'], []⟩ := by
  have hjoin : joinSlash (a :: mid ++ [b]) = p := by
    rw [← hsplit, joinSlash_splitOnSlash]
  have hph2 : ∀ q ∈ (a :: mid ++ [b]).enum, isPlaceholder q.2 = false := by
    intro q hq
    obtain ⟨i, x⟩ := q
    have hq2 : (i, x) ∈ List.enumFrom 0 (a :: mid ++ [b]) := hq
    rcases List.mem_enumFrom hq2 with ⟨-, -, hx⟩
    apply hph
    rw [hsplit, hx]
    exact List.getElem_mem _
  have hL : (a :: mid ++ [b]).length - 1 = mid.length + 1 := by simp
  have hfold : (a :: mid ++ [b]).enum.foldl placeholderStep ([], [])
      = (a :: mid ++ [b], []) := by
    rw [foldl_placeholderStep _ _ _ hph2]
    simp [List.enum_map_snd]
  have hhead : regex_mapper (mid.length + 1) 0 a = '^' :: a := by
    unfold regex_mapper
    rw [if_pos rfl, if_neg ha1, if_neg (by omega)]
  have htail := map_regex_mapper_tail b mid 1 (mid.length + 1) (by omega)
    (by omega) hmid hb1 hb2
  have hmap : (a :: mid ++ [b]).enum.map
      (fun q => regex_mapper (mid.length + 1) q.1 q.2)
      = ('^' :: a) :: (mid ++ [b ++ ['$']]) := by
    simp only [List.cons_append, List.enum, List.enumFrom, List.map, hhead]
    exact congrArg _ htail
  have hne1 : mid ++ [b ++ ['$']] ≠ [] := by simp
  have hne2 : mid ++ [b] ≠ [] := by simp
  have hjoin2 : joinSlash (('^' :: a) :: (mid ++ [b ++ ['$']]))
      = '^' :: p ++ ['$'] := by
    rw [joinSlash_cons_of_ne_nil ('^' :: a) (mid ++ [b ++ ['$']]) hne1,
      joinSlash_append_last, ← hjoin]
    simp only [List.cons_append]
    rw [joinSlash_cons_of_ne_nil a (mid ++ [b]) hne2]
    simp
  simp only [compileOne, hsplit, hL, hfold, hmap, hjoin, hjoin2]

theorem stripFirstLast_wrap (p : Str) :
    stripFirstLast ('^' :: (p ++ ['$'])) = p := by
  simp [stripFirstLast]

theorem on_topic_of_exact (app : App) (p : Str) (hid : Nat)
    (beh : Option ExcKind)
    (hc : compileOne p = ⟨p, '^' :: p ++ ['$'], []⟩) :
    on_topic app [p] hid beh
      = { app with
          callbacks_topic := dictAppend app.callbacks_topic p ⟨hid, beh⟩ } := by
  simp [on_topic, hc, stripFirstLast_wrap]

theorem runHotwordLoop_clean (hs : List HotwordHandler)
    (h : ∀ x ∈ hs, x.beh = none) :
    runHotwordLoop hs = (hs.map (fun x => Event.invokedHotword x.hid), none) := by
  induction hs with
  | nil => simp [runHotwordLoop]
  | cons x hs ih =>
    have hx : x.beh = none := h x (List.mem_cons_self x hs)
    have ih2 := ih (fun y hy => h y (List.mem_cons_of_mem x hy))
    simp [runHotwordLoop, hx, ih2]

theorem runHotwordLoop_raise (pre : List HotwordHandler) (x : HotwordHandler)
    (post : List HotwordHandler) (k : ExcKind)
    (hpre : ∀ y ∈ pre, y.beh = none) (hx : x.beh = some k) :
    runHotwordLoop (pre ++ x :: post)
      = (pre.map (fun y => Event.invokedHotword y.hid)
          ++ [Event.invokedHotword x.hid], some k) := by
  induction pre with
  | nil => simp [runHotwordLoop, hx]
  | cons y pre ih =>
    have hy : y.beh = none := hpre y (List.mem_cons_self y pre)
    have ih2 := ih (fun z hz => hpre z (List.mem_cons_of_mem y hz))
    simp [runHotwordLoop, hy, ih2]

theorem runTopicLoop_clean (topic : Str) (payload : Payload)
    (fns : List TopicHandler) (h : ∀ x ∈ fns, x.beh = none) :
    runTopicLoop topic payload fns
      = (fns.map (fun x => Event.invokedTopic x.hid topic [] payload), none,
         !fns.isEmpty) := by
  induction fns with
  | nil => simp [runTopicLoop]
  | cons x fns ih =>
    have hx : x.beh = none := h x (List.mem_cons_self x fns)
    have ih2 := ih (fun y hy => h y (List.mem_cons_of_mem x hy))
    simp [runTopicLoop, hx, ih2]

theorem extractDataE_ok (topic : Str) (nps : List (Str × Nat))
    (h : ∀ q ∈ nps, q.2 < (splitOnSlash topic).length) :
    extractDataE topic (some nps)
      = .ok (extractVals topic (some nps)) := by
  simp only [extractDataE, extractVals]
  generalize hacc : ([] : List (Str × Str)) = acc
  clear hacc
  induction nps generalizing acc with
  | nil => rfl
  | cons q nps ih =>
    have hq := h q (List.mem_cons_self q nps)
    have hgd : ∀ _h2 : q.2 < (splitOnSlash topic).length,
        (splitOnSlash topic).getD q.2 [] = (splitOnSlash topic)[q.2] := by
      intro h2
      rw [List.getD_eq_getElem?_getD, List.getElem?_eq_getElem h2]
      rfl
    simp only [List.foldlM_cons, List.foldl_cons, dif_pos hq, hgd hq]
    rw [← ih (fun r hr => h r (List.mem_cons_of_mem q hr))]
    rfl

theorem matchStar_run (cs : List Char) (k : Str → Bool) (s : Str) :
    matchStar cs k s = true ↔
      (k s = true ∨ ∃ x s2, s = x :: s2 ∧ cs.contains x = false ∧
        matchStar cs k s2 = true) := by
  cases s with
  | nil => simp [matchStar]
  | cons x s2 =>
    simp only [matchStar, Bool.or_eq_true, Bool.and_eq_true,
      Bool.not_eq_true']
    constructor
    · rintro (h | ⟨h1, h2⟩)
      · exact Or.inl h
      · exact Or.inr ⟨x, s2, rfl, h1, h2⟩
    · rintro (h | ⟨y, s3, heq, h1, h2⟩)
      · exact Or.inl h
      · cases heq
        exact Or.inr ⟨h1, h2⟩

theorem matchToks_lits (cs s : Str) (b : Bool) :
    (matchToks (cs.map RTok.lit ++ [RTok.endAnchor]) s b = true) ↔ s = cs := by
  induction cs generalizing s b with
  | nil =>
    cases s with
    | nil => simp [matchToks]
    | cons x s2 => simp [matchToks]
  | cons c cs ih =>
    cases s with
    | nil => simp [matchToks]
    | cons x s2 =>
      simp only [List.map, List.cons_append, matchToks, Bool.and_eq_true,
        beq_iff_eq, List.cons.injEq, List.append_eq]
      rw [ih]

theorem runExtras_clean (hid : Nat) (topic : Str) (payload : Payload)
    (extras : List (Str × Option (List (Str × Nat))))
    (hb : ∀ pr ∈ extras, ∀ q ∈ pr.2.getD [], q.2 < (splitOnSlash topic).length) :
    runExtras hid none topic payload extras
      = ((extras.filter (fun pr => reMatch pr.1 topic)).map
           (fun pr =>
             Event.invokedTopic hid topic (extractVals topic pr.2) payload),
         none,
         !(extras.filter (fun pr => reMatch pr.1 topic)).isEmpty) := by
  induction extras with
  | nil => simp [runExtras]
  | cons pr extras ih =>
    obtain ⟨pat, named⟩ := pr
    have ih2 := ih (fun r hr q hq =>
      hb r (List.mem_cons_of_mem (pat, named) hr) q hq)
    by_cases hm : reMatch pat topic = true
    · have hex : extractDataE topic named
          = .ok (extractVals topic named) := by
        cases named with
        | none => rfl
        | some nps =>
          apply extractDataE_ok
          intro q hq
          exact hb (pat, some nps) (List.mem_cons_self _ _) q (by simpa using hq)
      simp [runExtras, hm, hex, ih2, List.filter_cons]
    · have hm2 : reMatch pat topic = false := by
        cases hr : reMatch pat topic
        · rfl
        · exact absurd hr hm
      simp [runExtras, hm2, ih2, List.filter_cons]

/-! ### Closed counterexamples and concrete claims -/

/-- C1, counterexample: hotword handler 1 (registered first) raises; the
exception is logged by the outer handler, but handler 2 — registered after
it for the same category — is NOT invoked for that message, contrary to
the claim that dispatch continues with the next handler. -/
theorem claim_C1_counterexample :
    on_raw_message (on_hotword (on_hotword app0 ⟨1, some .other⟩) ⟨2, none⟩)
        (str "hermes/hotword/wake/detected") .hotwordMsg
      = [.invokedHotword 1, .logException] ∧
    Event.invokedHotword 2 ∉
      on_raw_message (on_hotword (on_hotword app0 ⟨1, some .other⟩) ⟨2, none⟩)
        (str "hermes/hotword/wake/detected") .hotwordMsg := by
  decide

/-- C2, counterexample: topic a/b has an exact registration (handler 1)
and also matches the registered pattern +/b (handler 2), yet dispatching
a/b invokes only handler 1 — the pattern handlers are skipped because the
code takes the exact branch of an if/else. -/
theorem claim_C2_counterexample :
    dictFind (on_topic (on_topic app0 [str "a/b"] 1 none) [str "+/b"] 2
        none).callbacks_topic (str "a/b") = some [⟨1, none⟩] ∧
    reMatch (compileOne (str "+/b")).pattern (str "a/b") = true ∧
    on_raw_message (on_topic (on_topic app0 [str "a/b"] 1 none) [str "+/b"] 2
        none) (str "a/b") (.rawBytes 0)
      = [.invokedTopic 1 (str "a/b") [] (.rawBytes 0)] ∧
    (on_raw_message (on_topic (on_topic app0 [str "a/b"] 1 none) [str "+/b"] 2
        none) (str "a/b") (.rawBytes 0)).all
      (fun e => match e with
        | Event.invokedTopic h _ _ _ => h != 2
        | _ => true) = true := by
  decide

/-- C3, counterexample: the single-segment literal pattern a compiles to
the regex ^a whose string stripped of first and last character is not a,
so the registration lands on the regex path (not the exact-match path),
and its matcher accepts the topic ab, which differs from the pattern. -/
theorem claim_C3_counterexample :
    (compileOne (str "a")).replaced = str "a" ∧
    (compileOne (str "a")).pattern = str "^a" ∧
    (on_topic app0 [str "a"] 1 none).callbacks_topic = [] ∧
    (on_topic app0 [str "a"] 1 none).callbacks_topic_regex
      = [⟨1, none, [(str "^a", none)]⟩] ∧
    reMatch (str "^a") (str "ab") = true ∧
    str "ab" ≠ str "a" := by
  decide

/-- C4, counterexample: registering the same hotword callback twice leaves
it twice in the category's list, and a dispatched hotword message invokes
it twice, not once. -/
theorem claim_C4_counterexample :
    (on_hotword (on_hotword app0 ⟨7, none⟩) ⟨7, none⟩).callbacks_hotword
      = [⟨7, none⟩, ⟨7, none⟩] ∧
    on_raw_message (on_hotword (on_hotword app0 ⟨7, none⟩) ⟨7, none⟩)
        (str "hermes/hotword/wake/detected") .hotwordMsg
      = [.invokedHotword 7, .invokedHotword 7] ∧
    List.count (Event.invokedHotword 7)
      (on_raw_message (on_hotword (on_hotword app0 ⟨7, none⟩) ⟨7, none⟩)
        (str "hermes/hotword/wake/detected") .hotwordMsg) = 2 := by
  decide

/-- C5, counterexample: for the pattern +/test, whose first segment is +,
the compiled matcher rejects foo/test although foo is a non-empty first
segment not containing a slash; it accepts x/test — the first-segment +
compiles to the single-character class ^[^+#/].  The lone single-segment
pattern + instead compiles to the unanchored ^[^+#/] and accepts ab, a
topic whose first segment has two characters. -/
theorem claim_C5_counterexample :
    (compileOne (str "+/test")).pattern = str "^[^+#/]/test$" ∧
    reMatch (compileOne (str "+/test")).pattern (str "foo/test") = false ∧
    reMatch (compileOne (str "+/test")).pattern (str "x/test") = true ∧
    (compileOne (str "+")).pattern = str "^[^+#/]" ∧
    reMatch (compileOne (str "+")).pattern (str "ab") = true := by
  decide

/-- C6, counterexample: registering a/#/b, whose # sits in a non-final
segment, does not fail at all: the registration completes normally and is
silently stored on the exact-match path as the literal topic a/#/b, and
the start-up subscription list contains that malformed filter. -/
theorem claim_C6_counterexample :
    (on_topic app0 [str "a/#/b"] 1 none).callbacks_topic
      = [(str "a/#/b", [⟨1, none⟩])] ∧
    (on_topic app0 [str "a/#/b"] 1 none).callbacks_topic_regex = [] ∧
    (on_topic app0 [str "a/#/b"] 1 none).additional_topic = [] ∧
    subscribeTopicsList (on_topic app0 [str "a/#/b"] 1 none)
      = [str "a/#/b"] := by
  decide

/-- C7, counterexample: the two patterns with a placeholder first segment
both compile to the broker filter +/x, and the start-up subscription list
contains that filter twice — it is not duplicate-free. -/
theorem claim_C7_counterexample :
    subscribeTopicsList
        (on_topic (on_topic app0 [str "{a}/x"] 1 none) [str "{b}/x"] 2 none)
      = [str "+/x", str "+/x"] ∧
    ¬ (subscribeTopicsList
        (on_topic (on_topic app0 [str "{a}/x"] 1 none) [str "{b}/x"] 2
          none)).Nodup ∧
    List.count (str "+/x")
      (subscribeTopicsList
        (on_topic (on_topic app0 [str "{a}/x"] 1 none) [str "{b}/x"] 2
          none)) = 2 := by
  decide

/-- C8: the pattern hermes/+/{siteId}/test records the placeholder siteId
at zero-based segment index 2; its matcher accepts
hermes/foo/kitchen/test, the dispatched handler receives the extracted
mapping siteId to kitchen, and hermes/foo/bar/other is rejected (logged
as an unexpected topic). -/
theorem claim_C8 :
    (compileOne (str "hermes/+/{siteId}/test")).named_positions
      = [(str "siteId", 2)] ∧
    reMatch (compileOne (str "hermes/+/{siteId}/test")).pattern
      (str "hermes/foo/kitchen/test") = true ∧
    on_raw_message (on_topic app0 [str "hermes/+/{siteId}/test"] 3 none)
        (str "hermes/foo/kitchen/test") (.rawBytes 0)
      = [.invokedTopic 3 (str "hermes/foo/kitchen/test")
          [(str "siteId", str "kitchen")] (.rawBytes 0)] ∧
    reMatch (compileOne (str "hermes/+/{siteId}/test")).pattern
      (str "hermes/foo/bar/other") = false ∧
    on_raw_message (on_topic app0 [str "hermes/+/{siteId}/test"] 3 none)
        (str "hermes/foo/bar/other") (.rawBytes 0)
      = [.logUnexpectedTopic] := by
  decide

end RHApp

namespace RHApp

/-! ### Amended claims -/

/-- C1 (amended): an exception raised by a hotword handler is caught by the
outer except of on_raw_message and logged, does not propagate, and the next
dispatched message is processed normally; however the handlers registered
after the raising one for the same category are skipped for the current
message (the trace contains no event of theirs). -/
theorem claim_C1 (app : App) (pre post : List HotwordHandler)
    (x : HotwordHandler) (topic : Str) (payload : Payload)
    (rest : List (Str × Payload))
    (happ : app.callbacks_hotword = pre ++ x :: post)
    (hpre : ∀ y ∈ pre, y.beh = none)
    (hx : x.beh = some ExcKind.other)
    (ht : hotword_is_topic topic = true)
    (hp : payload = .hotwordMsg) :
    processMessages app ((topic, payload) :: rest)
      = (pre.map (fun y => Event.invokedHotword y.hid)
          ++ [Event.invokedHotword x.hid, Event.logException])
        ++ processMessages app rest := by
  subst hp
  have h1 : on_raw_message app topic .hotwordMsg
      = pre.map (fun y => Event.invokedHotword y.hid)
        ++ [Event.invokedHotword x.hid, Event.logException] := by
    simp only [on_raw_message, ht, ite_true, hotwordFromJson, happ,
      runHotwordLoop_raise pre x post ExcKind.other hpre hx]
    simp
  simp [processMessages, h1]

/-- C1 witness: concrete two-handler app whose first hotword handler
raises; the second handler is skipped, the exception is logged and the
following message is still dispatched. -/
theorem claim_C1_witness :
    (on_hotword (on_hotword app0 ⟨1, some .other⟩) ⟨2, none⟩).callbacks_hotword
      = [] ++ ⟨1, some ExcKind.other⟩ :: [⟨2, none⟩] ∧
    processMessages (on_hotword (on_hotword app0 ⟨1, some .other⟩) ⟨2, none⟩)
        [(str "hermes/hotword/wake/detected", .hotwordMsg),
         (str "unknown/topic", .rawBytes 0)]
      = (([] : List HotwordHandler).map (fun y => Event.invokedHotword y.hid)
          ++ [Event.invokedHotword 1, Event.logException])
        ++ processMessages
            (on_hotword (on_hotword app0 ⟨1, some .other⟩) ⟨2, none⟩)
            [(str "unknown/topic", .rawBytes 0)] :=
  ⟨by decide,
   claim_C1 _ [] [⟨2, none⟩] ⟨1, some .other⟩ _ _ _ (by decide) (by simp)
     rfl (by decide) rfl⟩

/-- C2 (amended): when an incoming generic topic equals a registered
literal topic, only the exact-topic handlers are invoked for that message
— in registration order — and no wildcard/template handler runs, even if
patterns match the topic (exact match and pattern match are the two arms
of an if/else). -/
theorem claim_C2 (app : App) (t : Str) (payload : Payload)
    (fns : List TopicHandler)
    (hhot : hotword_is_topic t = false)
    (hint : intent_is_topic t = false)
    (hinr : inr_is_topic t = false)
    (hfind : dictFind app.callbacks_topic t = some fns)
    (hclean : ∀ x ∈ fns, x.beh = none)
    (hne : fns ≠ []) :
    on_raw_message app t payload
      = fns.map (fun x => Event.invokedTopic x.hid t [] payload) := by
  have hne2 : fns.isEmpty = false := by
    cases fns with
    | nil => exact absurd rfl hne
    | cons a l => rfl
  simp only [on_raw_message, hhot, hint, hinr, ite_false, handleGeneric,
    hfind, runTopicLoop_clean t payload fns hclean, hne2]
  simp

/-- C2 witness: the app registering the literal a/b (handler 1) and the
matching pattern +/b (handler 2); dispatching a/b invokes only handler 1. -/
theorem claim_C2_witness :
    hotword_is_topic (str "a/b") = false ∧
    intent_is_topic (str "a/b") = false ∧
    inr_is_topic (str "a/b") = false ∧
    dictFind (on_topic (on_topic app0 [str "a/b"] 1 none) [str "+/b"] 2
        none).callbacks_topic (str "a/b") = some [⟨1, none⟩] ∧
    on_raw_message (on_topic (on_topic app0 [str "a/b"] 1 none) [str "+/b"] 2
        none) (str "a/b") (.rawBytes 0)
      = [(⟨1, none⟩ : TopicHandler)].map
          (fun x => Event.invokedTopic x.hid (str "a/b") [] (.rawBytes 0)) :=
  ⟨by decide, by decide, by decide, by decide,
   claim_C2 _ _ _ [⟨1, none⟩] (by decide) (by decide) (by decide) (by decide)
     (by decide) (by decide)⟩

/-- C4 (amended): registration never deduplicates: registering the same
hotword callback twice, the same intent callback twice for the same intent
name, or the same topic callback twice for the same literal topic leaves
it twice in the category's list, and a dispatched matching message invokes
it exactly twice. -/
theorem claim_C4 (hid : Nat) (f : IntentHandler) (m : NluIntentMsg)
    (hf : ∀ msg, f.run msg = .ok .noResult)
    (hm : m.intent_name = str "TestIntent") :
    ((on_hotword (on_hotword app0 ⟨hid, none⟩) ⟨hid, none⟩).callbacks_hotword
        = [⟨hid, none⟩, ⟨hid, none⟩] ∧
      on_raw_message (on_hotword (on_hotword app0 ⟨hid, none⟩) ⟨hid, none⟩)
          (str "hermes/hotword/wake/detected") .hotwordMsg
        = [Event.invokedHotword hid, Event.invokedHotword hid]) ∧
    (dictFind (on_intent (on_intent app0 [str "TestIntent"] f)
          [str "TestIntent"] f).callbacks_intent (str "TestIntent")
        = some [f, f] ∧
      on_raw_message (on_intent (on_intent app0 [str "TestIntent"] f)
          [str "TestIntent"] f)
          (str "hermes/intent/TestIntent") (.intentMsg m)
        = [Event.invokedIntent f.hid, Event.invokedIntent f.hid]) ∧
    ((on_topic (on_topic app0 [str "a/b"] hid none) [str "a/b"] hid
          none).callbacks_topic
        = [(str "a/b", [⟨hid, none⟩, ⟨hid, none⟩])] ∧
      on_raw_message (on_topic (on_topic app0 [str "a/b"] hid none)
          [str "a/b"] hid none) (str "a/b") (.rawBytes 0)
        = [Event.invokedTopic hid (str "a/b") [] (.rawBytes 0),
           Event.invokedTopic hid (str "a/b") [] (.rawBytes 0)]) := by
  have happ : (on_hotword (on_hotword app0 ⟨hid, none⟩)
      ⟨hid, none⟩).callbacks_hotword = [⟨hid, none⟩, ⟨hid, none⟩] := rfl
  have ht : hotword_is_topic (str "hermes/hotword/wake/detected") = true := by
    decide
  have hclean : ∀ y ∈ [(⟨hid, none⟩ : HotwordHandler), ⟨hid, none⟩],
      y.beh = none := by
    intro y hy
    fin_cases hy <;> rfl
  have hdisp : on_raw_message (on_hotword (on_hotword app0 ⟨hid, none⟩)
      ⟨hid, none⟩) (str "hermes/hotword/wake/detected") .hotwordMsg
      = [Event.invokedHotword hid, Event.invokedHotword hid] := by
    simp [on_raw_message, ht, hotwordFromJson, happ,
      runHotwordLoop_clean _ hclean]
  have hints : (on_intent (on_intent app0 [str "TestIntent"] f)
      [str "TestIntent"] f).callbacks_intent
      = [(str "TestIntent", [f, f])] := by
    simp [on_intent, app0, dictAppend]
  have hfind : dictFind (on_intent (on_intent app0 [str "TestIntent"] f)
      [str "TestIntent"] f).callbacks_intent (str "TestIntent")
      = some [f, f] := by
    rw [hints]
    simp [dictFind]
  have hhot2 : hotword_is_topic (str "hermes/intent/TestIntent") = false := by
    decide
  have hint2 : intent_is_topic (str "hermes/intent/TestIntent") = true := by
    decide
  have hdisp2 : on_raw_message (on_intent (on_intent app0 [str "TestIntent"] f)
      [str "TestIntent"] f) (str "hermes/intent/TestIntent") (.intentMsg m)
      = [Event.invokedIntent f.hid, Event.invokedIntent f.hid] := by
    simp only [on_raw_message, hhot2, hint2, ite_true, ite_false,
      intentFromJson, hm, hfind, runIntentLoop, hf, sessionTranslate]
    simp
  have hc : compileOne (str "a/b")
      = ⟨str "a/b", '^' :: str "a/b" ++ ['$'], []⟩ := by decide
  have hr1 := on_topic_of_exact app0 (str "a/b") hid none hc
  have hr2 := on_topic_of_exact (on_topic app0 [str "a/b"] hid none)
    (str "a/b") hid none hc
  have htop : (on_topic (on_topic app0 [str "a/b"] hid none) [str "a/b"] hid
      none).callbacks_topic
      = [(str "a/b", [⟨hid, none⟩, ⟨hid, none⟩])] := by
    rw [hr2, hr1]
    simp [app0, dictAppend]
  have hfind3 : dictFind (on_topic (on_topic app0 [str "a/b"] hid none)
      [str "a/b"] hid none).callbacks_topic (str "a/b")
      = some [⟨hid, none⟩, ⟨hid, none⟩] := by
    rw [htop]
    simp [dictFind]
  have hclean3 : ∀ x ∈ [(⟨hid, none⟩ : TopicHandler), ⟨hid, none⟩],
      x.beh = none := by
    intro x hx
    fin_cases hx <;> rfl
  have hhot3 : hotword_is_topic (str "a/b") = false := by decide
  have hint3 : intent_is_topic (str "a/b") = false := by decide
  have hinr3 : inr_is_topic (str "a/b") = false := by decide
  have hdisp3 : on_raw_message (on_topic (on_topic app0 [str "a/b"] hid none)
      [str "a/b"] hid none) (str "a/b") (.rawBytes 0)
      = [Event.invokedTopic hid (str "a/b") [] (.rawBytes 0),
         Event.invokedTopic hid (str "a/b") [] (.rawBytes 0)] := by
    simp only [on_raw_message, hhot3, hint3, hinr3, ite_false, handleGeneric,
      hfind3, runTopicLoop_clean _ _ _ hclean3]
    simp
  exact ⟨⟨happ, hdisp⟩, ⟨hfind, hdisp2⟩, ⟨htop, hdisp3⟩⟩

/-- C4 witness: a concrete callback registered twice for the hotword
category, twice for the intent TestIntent and twice for the literal topic
a/b is stored twice and invoked twice per matching message. -/
theorem claim_C4_witness :
    (∀ msg, (⟨5, fun _ => Except.ok HandlerResult.noResult⟩
        : IntentHandler).run msg = .ok .noResult) ∧
    (((on_hotword (on_hotword app0 ⟨7, none⟩) ⟨7, none⟩).callbacks_hotword
        = [⟨7, none⟩, ⟨7, none⟩] ∧
      on_raw_message (on_hotword (on_hotword app0 ⟨7, none⟩) ⟨7, none⟩)
          (str "hermes/hotword/wake/detected") .hotwordMsg
        = [Event.invokedHotword 7, Event.invokedHotword 7]) ∧
    (dictFind (on_intent (on_intent app0 [str "TestIntent"]
          ⟨5, fun _ => Except.ok HandlerResult.noResult⟩)
          [str "TestIntent"]
          ⟨5, fun _ => Except.ok HandlerResult.noResult⟩).callbacks_intent
        (str "TestIntent")
        = some [⟨5, fun _ => Except.ok HandlerResult.noResult⟩,
                ⟨5, fun _ => Except.ok HandlerResult.noResult⟩] ∧
      on_raw_message (on_intent (on_intent app0 [str "TestIntent"]
          ⟨5, fun _ => Except.ok HandlerResult.noResult⟩)
          [str "TestIntent"] ⟨5, fun _ => Except.ok HandlerResult.noResult⟩)
          (str "hermes/intent/TestIntent")
          (.intentMsg ⟨str "TestIntent", none, str "site"⟩)
        = [Event.invokedIntent 5, Event.invokedIntent 5]) ∧
    ((on_topic (on_topic app0 [str "a/b"] 7 none) [str "a/b"] 7
          none).callbacks_topic
        = [(str "a/b", [⟨7, none⟩, ⟨7, none⟩])] ∧
      on_raw_message (on_topic (on_topic app0 [str "a/b"] 7 none)
          [str "a/b"] 7 none) (str "a/b") (.rawBytes 0)
        = [Event.invokedTopic 7 (str "a/b") [] (.rawBytes 0),
           Event.invokedTopic 7 (str "a/b") [] (.rawBytes 0)])) :=
  ⟨fun _ => rfl,
   claim_C4 7 ⟨5, fun _ => Except.ok HandlerResult.noResult⟩
     ⟨str "TestIntent", none, str "site"⟩ (fun _ => rfl) rfl⟩

end RHApp

namespace RHApp

/-- C3 (amended): for a topic pattern with no + segment, no # segment and
no placeholder segment that contains at least one / (at least two
segments), the compiled broker filter equals the pattern, the registration
is stored on the exact-match (non-regex) path, and the exact-match lookup
accepts exactly one concrete topic: the pattern itself.  Single-segment
wildcard-free patterns instead land on the regex path with a prefix-match
regex (see the counterexample). -/
theorem claim_C3 (p : Str) (hid : Nat) (hslash : '/' ∈ p)
    (hseg : ∀ s ∈ splitOnSlash p,
      s ≠ ['+'] ∧ s ≠ ['#'] ∧ isPlaceholder s = false) :
    (compileOne p).replaced = p ∧
    (on_topic app0 [p] hid none).callbacks_topic = [(p, [⟨hid, none⟩])] ∧
    (on_topic app0 [p] hid none).callbacks_topic_regex = [] ∧
    (on_topic app0 [p] hid none).additional_topic = [] ∧
    subscribeTopicsList (on_topic app0 [p] hid none) = [p] ∧
    ∀ t payload,
      ((handleGeneric (on_topic app0 [p] hid none) t payload).1
        = [Event.invokedTopic hid t [] payload] ↔ t = p) := by
  have hlen := two_le_splitOnSlash_length p hslash
  obtain ⟨a, l, hl⟩ := splitOnSlash_exists_cons p
  have hlne : l ≠ [] := by
    intro h
    rw [hl, h] at hlen
    simp at hlen
  obtain ⟨mid, b, hmb⟩ : ∃ mid b, l = mid ++ [b] := by
    rcases List.eq_nil_or_concat l with h | ⟨L, c, h⟩
    · exact absurd h hlne
    · exact ⟨L, c, by simpa using h⟩
  subst hmb
  have hsplit : splitOnSlash p = a :: mid ++ [b] := hl
  have ha : a ≠ ['+'] := (hseg a (by rw [hsplit]; simp)).1
  have hb1 : b ≠ ['#'] := (hseg b (by rw [hsplit]; simp)).2.1
  have hb2 : b ≠ ['+'] := (hseg b (by rw [hsplit]; simp)).1
  have hmid : ∀ s ∈ mid, s ≠ ['+'] := fun s hs =>
    (hseg s (by rw [hsplit]; simp [hs])).1
  have hph : ∀ s ∈ splitOnSlash p, isPlaceholder s = false := fun s hs =>
    (hseg s hs).2.2
  have hc := compileOne_literal p a b mid hsplit hph ha hmid hb1 hb2
  have hreg := on_topic_of_exact app0 p hid none hc
  have htop : (on_topic app0 [p] hid none).callbacks_topic
      = [(p, [⟨hid, none⟩])] := by
    rw [hreg]
    simp [app0, dictAppend]
  have hrx : (on_topic app0 [p] hid none).callbacks_topic_regex = [] := by
    rw [hreg]
    rfl
  have hadd : (on_topic app0 [p] hid none).additional_topic = [] := by
    rw [hreg]
    rfl
  have hsub : subscribeTopicsList (on_topic app0 [p] hid none) = [p] := by
    rw [hreg]
    simp [subscribeTopicsList, app0, dictAppend, dictKeys]
  refine ⟨by rw [hc], htop, hrx, hadd, hsub, ?_⟩
  intro t payload
  by_cases ht : t = p
  · subst ht
    have hfind : dictFind (on_topic app0 [t] hid none).callbacks_topic t
        = some [⟨hid, none⟩] := by
      rw [htop]
      simp [dictFind]
    simp [handleGeneric, hfind, runTopicLoop]
  · have hbeq : (p == t) = false := beq_eq_false_iff_ne.mpr (Ne.symm ht)
    have hfind : dictFind (on_topic app0 [p] hid none).callbacks_topic t
        = none := by
      rw [htop]
      simp [dictFind, List.find?, hbeq]
    simp [handleGeneric, hfind, hrx, runRegexLoop, ht]

/-- C3 witness: the two-segment literal pattern a/b satisfies the amended
claim: filter a/b, exact-path storage, matcher accepting only a/b. -/
theorem claim_C3_witness :
    ('/' ∈ str "a/b") ∧
    (compileOne (str "a/b")).replaced = str "a/b" ∧
    (on_topic app0 [str "a/b"] 1 none).callbacks_topic
      = [(str "a/b", [⟨1, none⟩])] ∧
    (on_topic app0 [str "a/b"] 1 none).callbacks_topic_regex = [] ∧
    (on_topic app0 [str "a/b"] 1 none).additional_topic = [] ∧
    subscribeTopicsList (on_topic app0 [str "a/b"] 1 none) = [str "a/b"] ∧
    ∀ t payload,
      ((handleGeneric (on_topic app0 [str "a/b"] 1 none) t payload).1
        = [Event.invokedTopic 1 t [] payload] ↔ t = str "a/b") :=
  ⟨by decide, claim_C3 (str "a/b") 1 (by decide) (by decide)⟩

/-- C6 (amended): a pattern whose # lies in a non-final segment (with the
other segments literal) is not rejected at registration time: on_topic
completes silently, storing the callback on the exact-match path under the
literal topic string, and the subscription list carries the malformed
filter verbatim. -/
theorem claim_C6 (p a b : Str) (mid : List Str) (hid : Nat)
    (hsplit : splitOnSlash p = a :: mid ++ [b])
    (_hhash : ['#'] ∈ mid)
    (hph : ∀ s ∈ splitOnSlash p, isPlaceholder s = false)
    (ha : a ≠ ['+'])
    (hmid : ∀ s ∈ mid, s ≠ ['+'])
    (hb1 : b ≠ ['#']) (hb2 : b ≠ ['+']) :
    on_topic app0 [p] hid none
      = { app0 with callbacks_topic := [(p, [⟨hid, none⟩])] } ∧
    subscribeTopicsList (on_topic app0 [p] hid none) = [p] := by
  have hc := compileOne_literal p a b mid hsplit hph ha hmid hb1 hb2
  have hreg := on_topic_of_exact app0 p hid none hc
  constructor
  · rw [hreg]
    simp [app0, dictAppend]
  · rw [hreg]
    simp [subscribeTopicsList, app0, dictAppend, dictKeys]

/-- C6 witness: the malformed pattern a/#/b is silently registered as an
exact literal topic and subscribed verbatim. -/
theorem claim_C6_witness :
    splitOnSlash (str "a/#/b") = str "a" :: [str "#"] ++ [str "b"] ∧
    (['#'] : Str) ∈ [str "#"] ∧
    (on_topic app0 [str "a/#/b"] 1 none
      = { app0 with callbacks_topic := [(str "a/#/b", [⟨1, none⟩])] } ∧
    subscribeTopicsList (on_topic app0 [str "a/#/b"] 1 none)
      = [str "a/#/b"]) :=
  ⟨by decide, by decide,
   claim_C6 (str "a/#/b") (str "a") (str "b") [str "#"] 1 (by decide)
     (by decide) (by decide) (by decide) (by decide) (by decide) (by decide)⟩

end RHApp

namespace RHApp

theorem foldl_placeholderStep_shape (l : List (Nat × Str)) (acc : List Str)
    (nm : List (Str × Nat)) :
    ∃ m : List Str, (l.foldl placeholderStep (acc, nm)).1 = acc ++ m
      ∧ m.length = l.length := by
  induction l generalizing acc nm with
  | nil => exact ⟨[], by simp, rfl⟩
  | cons q l ih =>
    simp only [List.foldl_cons, placeholderStep]
    by_cases hq : isPlaceholder q.2 = true
    · rw [if_pos hq]
      obtain ⟨m, hm, hlen⟩ := ih (acc ++ [['+']])
        (dictInsert nm ((q.2.drop 1).dropLast) q.1)
      exact ⟨['+'] :: m, by rw [hm]; simp, by simp [hlen]⟩
    · rw [if_neg hq]
      obtain ⟨m, hm, hlen⟩ := ih (acc ++ [q.2]) nm
      exact ⟨q.2 :: m, by rw [hm]; simp, by simp [hlen]⟩

theorem tokenizeRe_plus_head (r : Str) :
    tokenizeRe (str "^[^+#/]" ++ '/' :: r)
      = .startAnchor :: .negClass ['+', '#', '/'] :: .lit '/'
          :: tokenizeRe r := rfl

theorem compileOne_plus_head (p : Str) (segs1 : Str) (segs : List Str)
    (hsplit : splitOnSlash p = ['+'] :: segs1 :: segs) :
    ∃ r, (compileOne p).pattern = str "^[^+#/]" ++ '/' :: r := by
  have h1 : (compileOne p).pattern
      = joinSlash ((((splitOnSlash p).enum.foldl placeholderStep
          ([], [])).1).enum.map
          (fun q => regex_mapper ((splitOnSlash p).length - 1) q.1 q.2)) := rfl
  rw [hsplit] at h1
  have h2 : ((['+'] :: segs1 :: segs).enum.foldl placeholderStep ([], []))
      = (List.enumFrom 1 (segs1 :: segs)).foldl placeholderStep
          ([['+']], []) := rfl
  obtain ⟨m, hm, hlen⟩ := foldl_placeholderStep_shape
    (List.enumFrom 1 (segs1 :: segs)) [['+']] []
  have hlen2 : m.length = segs.length + 1 := by
    rw [hlen]
    simp
  obtain ⟨m0, mr, rfl⟩ : ∃ m0 mr, m = m0 :: mr := by
    cases m with
    | nil => simp at hlen2
    | cons m0 mr => exact ⟨m0, mr, rfl⟩
  rw [h2, hm] at h1
  refine ⟨joinSlash ((List.enumFrom 1 (m0 :: mr)).map
    (fun q => regex_mapper ((['+'] :: segs1 :: segs).length - 1)
      q.1 q.2)), ?_⟩
  rw [h1]
  have h3 : (([['+']] ++ m0 :: mr).enum.map
      (fun q => regex_mapper ((['+'] :: segs1 :: segs).length - 1) q.1 q.2))
      = str "^[^+#/]" :: (List.enumFrom 1 (m0 :: mr)).map
          (fun q => regex_mapper ((['+'] :: segs1 :: segs).length - 1)
            q.1 q.2) := rfl
  rw [h3]
  apply joinSlash_cons_of_ne_nil
  simp [List.enumFrom]

/-- C5 (amended): for every topic pattern whose first segment is the
wildcard + followed by at least one further segment, the first segment
compiles to the single-character class ^[^+#/]: every topic the compiled
matcher accepts begins with ONE character distinct from +, # and /
followed by the segment separator — not an arbitrary non-empty first
segment.  (The lone single-segment pattern + falls outside this rule: it
compiles to the unanchored ^[^+#/] and accepts any topic whose first
character is outside +, #, /; see the counterexample.) -/
theorem claim_C5 (p : Str) (segs1 : Str) (segs : List Str) (t : Str)
    (hsplit : splitOnSlash p = ['+'] :: segs1 :: segs)
    (hmatch : reMatch (compileOne p).pattern t = true) :
    ∃ c s, t = c :: '/' :: s ∧ c ∉ (['+', '#', '/'] : List Char) := by
  obtain ⟨r, hr⟩ := compileOne_plus_head p segs1 segs hsplit
  rw [hr, reMatch, tokenizeRe_plus_head] at hmatch
  cases t with
  | nil => simp [matchToks] at hmatch
  | cons c t1 =>
    cases t1 with
    | nil => simp [matchToks] at hmatch
    | cons x t2 =>
      simp only [matchToks, Bool.true_and, Bool.and_eq_true, beq_iff_eq,
        Bool.not_eq_true'] at hmatch
      obtain ⟨hc, hx, -⟩ := hmatch
      refine ⟨c, t2, ?_, ?_⟩
      · rw [hx]
      · simpa using hc

/-- C5 witness: the pattern +/test (first segment +, one further segment)
and the accepted topic x/test, whose first segment is the one character
x. -/
theorem claim_C5_witness :
    splitOnSlash (str "+/test") = ['+'] :: str "test" :: [] ∧
    reMatch (compileOne (str "+/test")).pattern (str "x/test") = true ∧
    ∃ c s, str "x/test" = c :: '/' :: s
      ∧ c ∉ (['+', '#', '/'] : List Char) :=
  ⟨by decide, by decide,
   claim_C5 (str "+/test") (str "test") [] (str "x/test") (by decide)
     (by decide)⟩
end RHApp

namespace RHApp

/-- C7 (amended): the start-up subscription list is the concatenation of
one intent filter per registered intent name (these are duplicate-free),
the hotword filter exactly when a hotword handler exists, the
not-recognized filter exactly when such a handler exists (each modulo a
coincidence with a registered raw topic), every registered literal topic,
and every compiled wildcard/template filter once per compiling
registration — the wildcard filters are NOT deduplicated, so two patterns
compiling to the same filter contribute it twice. -/
theorem claim_C7 (app : App)
    (hnk : (dictKeys app.callbacks_intent).Nodup) :
    subscribeTopicsList app
      = ((dictKeys app.callbacks_intent).map nluIntentTopic)
        ++ (if app.callbacks_hotword.isEmpty then []
            else [hotwordDetectedFilter])
        ++ (if app.callbacks_intent_not_recognized.isEmpty then []
            else [inrTopic])
        ++ dictKeys app.callbacks_topic
        ++ app.additional_topic ∧
    ((dictKeys app.callbacks_intent).map nluIntentTopic).Nodup ∧
    (hotwordDetectedFilter ∈ subscribeTopicsList app ↔
      (app.callbacks_hotword ≠ []
        ∨ hotwordDetectedFilter ∈ dictKeys app.callbacks_topic
        ∨ hotwordDetectedFilter ∈ app.additional_topic)) ∧
    (inrTopic ∈ subscribeTopicsList app ↔
      (app.callbacks_intent_not_recognized ≠ []
        ∨ inrTopic ∈ dictKeys app.callbacks_topic
        ∨ inrTopic ∈ app.additional_topic)) ∧
    ∀ f : Str, List.count f app.additional_topic
      ≤ List.count f (subscribeTopicsList app) := by
  have heq : subscribeTopicsList app
      = ((dictKeys app.callbacks_intent).map nluIntentTopic)
        ++ (if app.callbacks_hotword.isEmpty then []
            else [hotwordDetectedFilter])
        ++ (if app.callbacks_intent_not_recognized.isEmpty then []
            else [inrTopic])
        ++ dictKeys app.callbacks_topic
        ++ app.additional_topic := by
    simp only [subscribeTopicsList]
    by_cases h1 : app.callbacks_hotword.isEmpty <;>
      by_cases h2 : app.callbacks_intent_not_recognized.isEmpty <;>
        simp [h1, h2]
  have hinj : Function.Injective nluIntentTopic := by
    intro x y h
    exact List.append_cancel_left h
  have hnodup2 : ((dictKeys app.callbacks_intent).map nluIntentTopic).Nodup :=
    hnk.map hinj
  have hcharAt : ∀ n : Str, (nluIntentTopic n)[7]? = some 'i' := by
    intro n
    rw [nluIntentTopic, List.getElem?_append, if_pos (by decide)]
    decide
  have hh1 : ∀ n, nluIntentTopic n ≠ hotwordDetectedFilter := by
    intro n h
    have h2 : (nluIntentTopic n)[7]? = hotwordDetectedFilter[7]? := by rw [h]
    rw [hcharAt n] at h2
    have h3 : hotwordDetectedFilter[7]? = some 'h' := by decide
    rw [h3] at h2
    simp at h2
  have hh2 : ∀ n, nluIntentTopic n ≠ inrTopic := by
    intro n h
    have h2 : (nluIntentTopic n)[7]? = inrTopic[7]? := by rw [h]
    rw [hcharAt n] at h2
    have h3 : inrTopic[7]? = some 'n' := by decide
    rw [h3] at h2
    simp at h2
  have hh3 : hotwordDetectedFilter ≠ inrTopic := by decide
  have hA1 : hotwordDetectedFilter
      ∉ (dictKeys app.callbacks_intent).map nluIntentTopic := by
    intro h
    obtain ⟨n, -, hfn⟩ := List.mem_map.mp h
    exact hh1 n hfn
  have hA2 : inrTopic ∉ (dictKeys app.callbacks_intent).map nluIntentTopic := by
    intro h
    obtain ⟨n, -, hfn⟩ := List.mem_map.mp h
    exact hh2 n hfn
  have hBiff : hotwordDetectedFilter
      ∈ (if app.callbacks_hotword.isEmpty then []
          else [hotwordDetectedFilter]) ↔ app.callbacks_hotword ≠ [] := by
    by_cases hB : app.callbacks_hotword.isEmpty
    · simp [hB, List.isEmpty_iff.mp hB]
    · have hne : app.callbacks_hotword ≠ [] := by
        intro h
        rw [h] at hB
        exact hB rfl
      simp [hB, hne]
  have hCiff : (hotwordDetectedFilter
      ∈ (if app.callbacks_intent_not_recognized.isEmpty then []
          else [inrTopic])) ↔ False := by
    split
    · simp
    · simp [hh3]
  have hBiff2 : (inrTopic
      ∈ (if app.callbacks_hotword.isEmpty then []
          else [hotwordDetectedFilter])) ↔ False := by
    split
    · simp
    · simp [Ne.symm hh3]
  have hDiff : inrTopic
      ∈ (if app.callbacks_intent_not_recognized.isEmpty then []
          else [inrTopic]) ↔ app.callbacks_intent_not_recognized ≠ [] := by
    by_cases hB : app.callbacks_intent_not_recognized.isEmpty
    · simp [hB, List.isEmpty_iff.mp hB]
    · have hne : app.callbacks_intent_not_recognized ≠ [] := by
        intro h
        rw [h] at hB
        exact hB rfl
      simp [hB, hne]
  refine ⟨heq, hnodup2, ?_, ?_, ?_⟩
  · rw [heq]
    simp only [List.mem_append, hBiff, hCiff]
    simp [hA1, or_assoc]
  · rw [heq]
    simp only [List.mem_append, hBiff2, hDiff]
    simp [hA2, or_assoc]
  · intro f
    rw [heq]
    simp only [List.count_append]
    omega

/-- C7 witness: an app with one hotword handler and no other registration:
the subscription list is exactly the hotword filter. -/
theorem claim_C7_witness :
    (dictKeys (on_hotword app0 ⟨3, none⟩).callbacks_intent).Nodup ∧
    (subscribeTopicsList (on_hotword app0 ⟨3, none⟩)
      = ((dictKeys (on_hotword app0 ⟨3, none⟩).callbacks_intent).map
          nluIntentTopic)
        ++ (if (on_hotword app0 ⟨3, none⟩).callbacks_hotword.isEmpty then []
            else [hotwordDetectedFilter])
        ++ (if ((on_hotword app0
              ⟨3, none⟩).callbacks_intent_not_recognized).isEmpty then []
            else [inrTopic])
        ++ dictKeys (on_hotword app0 ⟨3, none⟩).callbacks_topic
        ++ (on_hotword app0 ⟨3, none⟩).additional_topic ∧
    ((dictKeys (on_hotword app0 ⟨3, none⟩).callbacks_intent).map
        nluIntentTopic).Nodup ∧
    (hotwordDetectedFilter ∈ subscribeTopicsList (on_hotword app0 ⟨3, none⟩) ↔
      ((on_hotword app0 ⟨3, none⟩).callbacks_hotword ≠ []
        ∨ hotwordDetectedFilter
            ∈ dictKeys (on_hotword app0 ⟨3, none⟩).callbacks_topic
        ∨ hotwordDetectedFilter
            ∈ (on_hotword app0 ⟨3, none⟩).additional_topic)) ∧
    (inrTopic ∈ subscribeTopicsList (on_hotword app0 ⟨3, none⟩) ↔
      ((on_hotword app0 ⟨3, none⟩).callbacks_intent_not_recognized ≠ []
        ∨ inrTopic ∈ dictKeys (on_hotword app0 ⟨3, none⟩).callbacks_topic
        ∨ inrTopic ∈ (on_hotword app0 ⟨3, none⟩).additional_topic)) ∧
    ∀ f : Str, List.count f (on_hotword app0 ⟨3, none⟩).additional_topic
      ≤ List.count f (subscribeTopicsList (on_hotword app0 ⟨3, none⟩))) :=
  ⟨by decide, claim_C7 (on_hotword app0 ⟨3, none⟩) (by decide)⟩

end RHApp

namespace RHApp

/-- C9: an intent handler returning EndSession: when the triggering intent
message carries a session id, exactly one outbound end-session message is
published, addressed to that session id and carrying the result's text and
custom data; when it carries none, no message is published and one error
is logged. -/
theorem claim_C9 (hid : Nat) (text cd : Option Str) (m : NluIntentMsg)
    (hm : m.intent_name = str "TestIntent") :
    (∀ sid, m.session_id = some sid →
      on_raw_message (on_intent app0 [str "TestIntent"]
          ⟨hid, fun _ => .ok (.endSession text cd)⟩)
          (str "hermes/intent/TestIntent") (.intentMsg m)
        = [Event.invokedIntent hid,
           Event.published (.dialogueEndSession sid m.site_id text cd)]) ∧
    (m.session_id = none →
      on_raw_message (on_intent app0 [str "TestIntent"]
          ⟨hid, fun _ => .ok (.endSession text cd)⟩)
          (str "hermes/intent/TestIntent") (.intentMsg m)
        = [Event.invokedIntent hid, Event.logNoSessionError]) := by
  have hhot : hotword_is_topic (str "hermes/intent/TestIntent") = false := by
    decide
  have hint : intent_is_topic (str "hermes/intent/TestIntent") = true := by
    decide
  have hfind : dictFind (on_intent app0 [str "TestIntent"]
      ⟨hid, fun _ => .ok (.endSession text cd)⟩).callbacks_intent
      (str "TestIntent")
      = some [⟨hid, fun _ => .ok (.endSession text cd)⟩] := by
    simp [on_intent, app0, dictAppend, dictFind]
  constructor
  · intro sid hsid
    simp [on_raw_message, hhot, hint, intentFromJson, hm, hfind,
      runIntentLoop, sessionTranslate, hsid]
  · intro hsid
    simp [on_raw_message, hhot, hint, intentFromJson, hm, hfind,
      runIntentLoop, sessionTranslate, hsid]

/-- C9 witness: with a session id, the single outbound end-session message
carries the id, text and custom data; without one, only the error is
logged. -/
theorem claim_C9_witness :
    (⟨str "TestIntent", some (str "sess"), str "site"⟩
        : NluIntentMsg).intent_name = str "TestIntent" ∧
    on_raw_message (on_intent app0 [str "TestIntent"]
        ⟨9, fun _ => .ok (.endSession (some (str "hi")) none)⟩)
        (str "hermes/intent/TestIntent")
        (.intentMsg ⟨str "TestIntent", some (str "sess"), str "site"⟩)
      = [Event.invokedIntent 9,
         Event.published (.dialogueEndSession (str "sess")
           (⟨str "TestIntent", some (str "sess"), str "site"⟩
             : NluIntentMsg).site_id (some (str "hi")) none)] ∧
    on_raw_message (on_intent app0 [str "TestIntent"]
        ⟨9, fun _ => .ok (.endSession (some (str "hi")) none)⟩)
        (str "hermes/intent/TestIntent")
        (.intentMsg ⟨str "TestIntent", none, str "site"⟩)
      = [Event.invokedIntent 9, Event.logNoSessionError] :=
  ⟨rfl,
   (claim_C9 9 (some (str "hi")) none
     ⟨str "TestIntent", some (str "sess"), str "site"⟩ rfl).1 (str "sess") rfl,
   (claim_C9 9 (some (str "hi")) none
     ⟨str "TestIntent", none, str "site"⟩ rfl).2 rfl⟩

/-- C10: a single wrapped callback registered with several wildcard or
template patterns is invoked once per matching pattern of an incoming
generic topic without exact registration — k matches give k invocations,
each carrying that pattern's own extracted name-value mapping. -/
theorem claim_C10 (app : App) (rh : RegexHandler) (topic : Str)
    (payload : Payload)
    (hhot : hotword_is_topic topic = false)
    (hint : intent_is_topic topic = false)
    (hinr : inr_is_topic topic = false)
    (hfind : dictFind app.callbacks_topic topic = none)
    (hreg : app.callbacks_topic_regex = [rh])
    (hbeh : rh.beh = none)
    (hb : ∀ pr ∈ rh.topic_extras, ∀ q ∈ pr.2.getD [],
      q.2 < (splitOnSlash topic).length)
    (hk : rh.topic_extras.filter (fun pr => reMatch pr.1 topic) ≠ []) :
    on_raw_message app topic payload
      = (rh.topic_extras.filter (fun pr => reMatch pr.1 topic)).map
          (fun pr => Event.invokedTopic rh.hid topic (extractVals topic pr.2)
            payload) := by
  have hk2 : (rh.topic_extras.filter
      (fun pr => reMatch pr.1 topic)).isEmpty = false := by
    cases h : rh.topic_extras.filter (fun pr => reMatch pr.1 topic) with
    | nil => exact absurd h hk
    | cons a l => rfl
  simp only [on_raw_message, hhot, hint, hinr, ite_false, handleGeneric,
    hfind, hreg, runRegexLoop, hbeh,
    runExtras_clean rh.hid topic payload rh.topic_extras hb, hk2]
  simp

/-- C10 witness: one registration with the two patterns with-placeholder
and +/x; the topic q/x matches both compiled patterns, so the handler runs
twice: once with the extracted mapping, once with the empty mapping. -/
theorem claim_C10_witness :
    hotword_is_topic (str "q/x") = false ∧
    dictFind (on_topic app0 [str "{a}/x", str "+/x"] 4
        none).callbacks_topic (str "q/x") = none ∧
    (on_topic app0 [str "{a}/x", str "+/x"] 4 none).callbacks_topic_regex
      = [⟨4, none, [(str "^[^+#/]/x$", some [(str "a", 0)]),
                    (str "^[^+#/]/x$", none)]⟩] ∧
    ((⟨4, none, [(str "^[^+#/]/x$", some [(str "a", 0)]),
        (str "^[^+#/]/x$", none)]⟩ : RegexHandler).topic_extras.filter
      (fun pr => reMatch pr.1 (str "q/x"))).length = 2 ∧
    on_raw_message (on_topic app0 [str "{a}/x", str "+/x"] 4 none)
        (str "q/x") (.rawBytes 5)
      = ((⟨4, none, [(str "^[^+#/]/x$", some [(str "a", 0)]),
            (str "^[^+#/]/x$", none)]⟩ : RegexHandler).topic_extras.filter
          (fun pr => reMatch pr.1 (str "q/x"))).map
          (fun pr => Event.invokedTopic 4 (str "q/x")
            (extractVals (str "q/x") pr.2) (.rawBytes 5)) :=
  ⟨by decide, by decide, by decide, by decide,
   claim_C10 (on_topic app0 [str "{a}/x", str "+/x"] 4 none)
     ⟨4, none, [(str "^[^+#/]/x$", some [(str "a", 0)]),
                (str "^[^+#/]/x$", none)]⟩
     (str "q/x") (.rawBytes 5) (by decide) (by decide) (by decide) (by decide)
     (by decide) (by decide) (by decide) (by decide)⟩

end RHApp
